import Mathlib

/-!
# Verification of the AskOuija comment-tree evaluation bot (`src/ouija.js`)

Shallow embedding of the bot's core: text normalization (`parseBody`),
comment classification (`OuijaComment` constructor), sibling deduplication
(`CommentDuplicateHandler`), sequence collection (`collectResponses`),
resolution (`getTopCompletedResponse` / `getResponse` / `hasTimeLeft`),
orchestration (`OuijaQuery.run` / `runQuery`), and the unanswered summary
(`processPending`).

Modelling conventions:
* JS strings are modelled as Lean `String` (a list of Unicode scalar values).
  `Array.from(s).length` (JS iteration by code point) is the length of that list.
* `String.prototype.toUpperCase` is modelled as the per-character ASCII case
  map (`upperChar`); the code's only non-ASCII case concern, `'ß'`, is special
  cased by the source itself before upper-casing.
* Reddit timestamps (`created_utc`) and the current time are `Nat` seconds;
  `moment.duration` parsing of the config's wait-duration string is external
  (the `moment` library), so `OuijaConfig.time` holds the parsed duration in
  seconds, `none` when the config has no `time` entry.
* `parseConfig` (a regex over the submission body producing string values that
  JS later coerces numerically) is likewise represented by the resulting
  `OuijaConfig` record: `minscore`/`minletters` are the coerced numbers,
  `none` when absent (JS falsy test `this.config.x`).
* Side effects against the platform (comment removal) are logged into the
  evaluation state as `(comment id, reason)` pairs instead of being performed.
-/

namespace Ouija

/-- Whitespace removed by JS `String.prototype.trim` (the common set). -/
def isJsWhitespace (c : Char) : Bool :=
  c = ' ' || c = '\t' || c = '\n' || c = '\r' || c = '\x0b' || c = '\x0c' || c = ' '

/-- A word character in the sense of the JS regex class `\w`: `[A-Za-z0-9_]`. -/
def isWordChar (c : Char) : Bool :=
  ('A' ≤ c && c ≤ 'Z') || ('a' ≤ c && c ≤ 'z') || ('0' ≤ c && c ≤ '9') || c = '_'

/-- ASCII upper-casing of one character (model of JS `toUpperCase` per char). -/
def upperChar (c : Char) : Char :=
  if 97 ≤ c.toNat ∧ c.toNat ≤ 122 then Char.ofNat (c.toNat - 32) else c

/-- A character matched by `.` in a JS regex without the `s` flag:
anything but a line terminator. -/
def isDotChar (c : Char) : Bool :=
  !(c = '\n' || c = '\r' || c = ' ' || c = ' ')

/-- `countSymbols` from ouija.js: `Array.from(string).length`, the number of
Unicode code points of the string (JS string iteration is by code point,
pairing surrogate halves). -/
def countSymbols (s : String) : Nat := s.toList.length

/-- JS `String.prototype.replace` with the literal string pattern `'\\'`:
removes the first occurrence (only) of the character. -/
def removeFirst (target : Char) : List Char → List Char
  | [] => []
  | c :: rest => if c = target then rest else c :: removeFirst target rest

/-- JS `String.prototype.trim`: drop whitespace from both ends. -/
def trimChars (l : List Char) : List Char :=
  ((l.dropWhile isJsWhitespace).reverse.dropWhile isJsWhitespace).reverse

/-- Matching of the lazy tail `\(.*?\)` of the `link` regex: consume up to and
including the first `')'`, failing on a line terminator or the end of input.
Returns the input remaining after the `')'`. -/
def findCloseParen : List Char → Option (List Char)
  | [] => none
  | c :: rest =>
    if c = ')' then some rest
    else if isDotChar c then findCloseParen rest
    else none

/-- One attempt of the literal part `\]\(` followed by the lazy `.*?\)` of the
`link` regex, at the current position: the current character must be `']'`,
the remaining input must start with `'('`, and a close parenthesis must be
reachable. Returns the input remaining after the `')'`. -/
def immediateClose (c : Char) (rest : List Char) : Option (List Char) :=
  if c = ']' then
    match rest with
    | '(' :: r2 => findCloseParen r2
    | _ => none
  else none

/-- Matching of `(.*?)\]\(.*?\)` (the `link` regex after its opening `'['`),
with JS lazy-group backtracking: the capture group grows one character at a
time, and at each size the rest of the pattern is tried via `immediateClose`.
Returns `(captured group, input remaining after the closing parenthesis)`. -/
def matchLinkAfterBracket : List Char → Option (List Char × List Char)
  | [] => none
  | c :: rest =>
    match immediateClose c rest with
    | some after => some ([], after)
    | none =>
      if isDotChar c then
        match matchLinkAfterBracket rest with
        | some (g, after) => some (c :: g, after)
        | none => none
      else none

theorem findCloseParen_length {l r : List Char} (h : findCloseParen l = some r) :
    r.length < l.length := by
  induction l with
  | nil => simp [findCloseParen] at h
  | cons c rest ih =>
    simp only [findCloseParen] at h
    split at h
    · cases h; simp
    · split at h
      · exact Nat.lt_trans (ih h) (Nat.lt_succ_self _)
      · cases h

theorem immediateClose_length {c : Char} {rest after : List Char}
    (h : immediateClose c rest = some after) : after.length < rest.length + 1 := by
  unfold immediateClose at h
  split at h
  · split at h
    · have := findCloseParen_length h
      simp only [List.length_cons]
      omega
    · cases h
  · cases h

theorem matchLinkAfterBracket_length {l : List Char} {g after : List Char}
    (h : matchLinkAfterBracket l = some (g, after)) : after.length < l.length := by
  induction l generalizing g after with
  | nil => simp [matchLinkAfterBracket] at h
  | cons c rest ih =>
    rw [matchLinkAfterBracket] at h
    split at h
    · rename_i a ha
      cases h
      simpa using immediateClose_length ha
    · split at h
      · split at h
        · rename_i g2 a2 hm
          cases h
          exact Nat.lt_trans (ih hm) (Nat.lt_succ_self _)
        · cases h
      · cases h

/-- Global replacement `body.replace(link, '$1')` for
`link = /\[(.*?)\]\(.*?\)/g`: scan left to right; at each `'['` try to match
the rest of the pattern; on success emit the captured group and continue after
the match, otherwise keep the character. -/
def stripLinksAux (l : List Char) : List Char :=
  match l with
  | [] => []
  | c :: rest =>
    if c = '[' then
      match h : matchLinkAfterBracket rest with
      | some (g, after) => g ++ stripLinksAux after
      | none => c :: stripLinksAux rest
    else c :: stripLinksAux rest
termination_by l.length
decreasing_by
  · exact Nat.lt_trans (matchLinkAfterBracket_length h) (Nat.lt_succ_self _)
  · simp
  · simp

/-- `OuijaComment.parseBody` from ouija.js:
```js
if (body === '[deleted]') return '*';
body = body.replace(link, '$1');
body = body.replace('\\', '').trim();
if (countSymbols(body) > 1){ body = body.replace(/\W/g, ''); }
if (body === 'ß') return body;
return body.toUpperCase();
```
-/
def parseBody (body : String) : String :=
  if body = "[deleted]" then "*"
  else
    let b1 := String.mk (stripLinksAux body.toList)
    let b2 := String.mk (trimChars (removeFirst '\\' b1.toList))
    let b3 := if countSymbols b2 > 1 then String.mk (b2.toList.filter isWordChar) else b2
    if b3 = "ß" then b3 else String.mk (b3.toList.map upperChar)

/-- `goodbyeRegex.test(body)` for `goodbyeRegex = /^GOODBYE/` (case sensitive). -/
def goodbyeRegexTest (s : String) : Bool :=
  "GOODBYE".toList.isPrefixOf s.toList

/-- The spec's wording of the terminator test: case-insensitive prefix match of
`"GOODBYE"` (upper-case the candidate before the prefix test). -/
def goodbyeCITest (s : String) : Bool :=
  "GOODBYE".toList.isPrefixOf (s.toList.map upperChar)

/-- The three comment classifications, `OuijaComment.Types` in ouija.js. -/
inductive OuijaComment.Types where
  | Letter
  | Goodbye
  | Invalid
deriving DecidableEq, Repr

/-- A raw reddit comment as the bot reads it through snoowrap: identifier,
raw body, author name, creation time (unix seconds), score, whether the
platform marks it removed/banned (`banned_by` truthy), and its child
comments in platform order. -/
inductive RawComment where
  | mk (id : String) (body : String) (author : String) (created_utc : Nat)
      (score : Int) (banned_by : Bool) (replies : List RawComment)

def RawComment.id : RawComment → String
  | .mk i _ _ _ _ _ _ => i

def RawComment.body : RawComment → String
  | .mk _ b _ _ _ _ _ => b

def RawComment.author : RawComment → String
  | .mk _ _ a _ _ _ _ => a

def RawComment.created_utc : RawComment → Nat
  | .mk _ _ _ c _ _ _ => c

def RawComment.score : RawComment → Int
  | .mk _ _ _ _ s _ _ => s

def RawComment.banned_by : RawComment → Bool
  | .mk _ _ _ _ _ b _ => b

def RawComment.replies : RawComment → List RawComment
  | .mk _ _ _ _ _ _ r => r

/-- The classified view of one comment (`class OuijaComment`): the underlying
snoowrap comment, the normalized body, the classification, and the `removed`
flag (set only in the banned branch of the constructor). -/
structure OuijaComment where
  snooObj : RawComment
  body : String
  type : OuijaComment.Types
  removed : Bool

/-- The `OuijaComment` constructor: normalize the body, then classify in
priority order — banned ⇒ Invalid; exactly one symbol ⇒ Letter;
`/^GOODBYE/` ⇒ Goodbye; otherwise Invalid. -/
def OuijaComment.of (comment : RawComment) : OuijaComment :=
  let body := parseBody comment.body
  if comment.banned_by then ⟨comment, body, .Invalid, true⟩
  else if countSymbols body = 1 then ⟨comment, body, .Letter, false⟩
  else if goodbyeRegexTest body then ⟨comment, body, .Goodbye, false⟩
  else ⟨comment, body, .Invalid, false⟩

/-- Property fallthrough of the `Proxy` in the constructor: `comment.score`
reads the underlying snoowrap comment's score. -/
def OuijaComment.score (c : OuijaComment) : Int := c.snooObj.score

/-- `get created()` from ouija.js. -/
def OuijaComment.created (c : OuijaComment) : Nat := c.snooObj.created_utc

/-- Proxy fallthrough for the author's name. -/
def OuijaComment.author (c : OuijaComment) : String := c.snooObj.author

/-- `OuijaComment.hasReplies`: `this.snooObj.replies.length > 0`. -/
def OuijaComment.hasReplies (c : OuijaComment) : Bool :=
  decide (c.snooObj.replies.length > 0)

/-- Reading `comment.body` on a constructed `OuijaComment` goes through the
constructor's `Proxy` whose get trap is `(target, prop) => target[prop] ||
comment[prop]`: JS `||` falls through on any *falsy* value, so when the
normalized body is the empty string the read yields the raw snoowrap body
instead. (`body` is the only proxied field the core reads that can be falsy:
`type` is a non-empty string, `hasReplies`/`remove` are methods, `author`,
`score` and `id` are absent on the target and always fall through to the raw
comment, as modelled by the accessors above.) -/
def OuijaComment.proxyBody (c : OuijaComment) : String :=
  if c.body = "" then c.snooObj.body else c.body

/-- One recorded complete sequence: accumulated letters plus the terminating
Goodbye comment (`{ letters, goodbye }` pushed in `collectResponses`). -/
structure CompleteResponse where
  letters : List String
  goodbye : OuijaComment

/-- One recorded incomplete sequence: accumulated letters plus the last Letter
comment of the dead branch (`{ letters, lastComment }`). -/
structure IncompleteResponse where
  letters : List String
  lastComment : OuijaComment

/-- The evaluation state of one `OuijaQuery` run: the collected complete and
incomplete responses (in traversal order) plus the log of removal side
effects issued against the platform, as `(comment id, reason)` pairs. -/
structure QueryState where
  complete : List CompleteResponse
  incomplete : List IncompleteResponse
  removals : List (String × String)

def emptyQueryState : QueryState := ⟨[], [], []⟩

/-- `OuijaComment.remove(reason)`: a no-op when the comment is already removed
(the banned branch of the constructor), otherwise the platform removal call,
which the model logs. -/
def removeComment (st : QueryState) (c : OuijaComment) (reason : String) : QueryState :=
  if c.removed then st
  else { st with removals := st.removals ++ [(c.snooObj.id, reason)] }

/-- Lookup in the `this.comments` object of `CommentDuplicateHandler`,
modelled as an assoc list in JS property insertion order. -/
def assocFind (comments : List (String × OuijaComment)) (key : String) :
    Option OuijaComment :=
  match comments with
  | [] => none
  | (k, c) :: rest => if k = key then some c else assocFind rest key

/-- In-place update `this.comments[key] = comment` when `key` is present
(JS keeps the original property position), appending when absent. -/
def assocUpdate (comments : List (String × OuijaComment)) (key : String)
    (comment : OuijaComment) : List (String × OuijaComment) :=
  match comments with
  | [] => [(key, comment)]
  | (k, c) :: rest =>
    if k = key then (key, comment) :: rest
    else (k, c) :: assocUpdate rest key comment

/-- `CommentDuplicateHandler.handle`: keyed by `comment.body` read through the
constructor's Proxy (`OuijaComment.proxyBody`) — the normalized body when it
is non-empty, the raw body otherwise; a strictly later comment without
replies is removed as duplicate; otherwise a retained comment without replies
is removed and replaced by the new comment; otherwise nothing happens. -/
def CommentDuplicateHandler.handle (comments : List (String × OuijaComment))
    (comment : OuijaComment) (st : QueryState) :
    List (String × OuijaComment) × QueryState :=
  let key := comment.proxyBody
  match assocFind comments key with
  | some existing =>
    if decide (comment.created > existing.created) && !comment.hasReplies then
      (comments, removeComment st comment "duplicate")
    else if !existing.hasReplies then
      (assocUpdate comments key comment, removeComment st existing "duplicate")
    else (comments, st)
  | none => (comments ++ [(key, comment)], st)

/-- The evaluation config parsed by `parseConfig` from the submission body.
The source stores the matched strings and lets JS coerce them numerically at
the use sites; the model holds the coerced values (`none` when the key is
absent, which the source tests with JS falsiness). `time` is the
`moment.duration` value in seconds (duration-string parsing is the external
`moment` library). -/
structure OuijaConfig where
  minscore : Option Int
  minletters : Option Nat
  time : Option Nat

/-- `get threshold()`: `this.config.minscore || COMMENT_SCORE_THRESHOLD`. -/
def OuijaQuery.threshold (cfg : OuijaConfig) (globalThreshold : Int) : Int :=
  match cfg.minscore with
  | some m => m
  | none => globalThreshold

/-- `OuijaQuery.hasTimeLeft`: false when no wait duration is configured,
otherwise whether the current time is before creation time + duration. -/
def OuijaQuery.hasTimeLeft (cfg : OuijaConfig) (created_utc now : Nat) : Bool :=
  match cfg.time with
  | none => false
  | some duration => decide (now < created_utc + duration)

/-- `OuijaQuery.getTopCompletedResponse`: fold over the complete responses
keeping the first response of strictly maximal goodbye score. -/
def OuijaQuery.getTopCompletedResponse (complete : List CompleteResponse) :
    Option CompleteResponse :=
  complete.foldl
    (fun top response =>
      match top with
      | none => some response
      | some t =>
        if response.goodbye.score > t.goodbye.score then some response else some t)
    none

/-- `OuijaQuery.getResponse`: `null` while time is left; otherwise the top
completed response when its score reaches the threshold, else `null`. -/
def OuijaQuery.getResponse (cfg : OuijaConfig) (globalThreshold : Int)
    (created_utc now : Nat) (st : QueryState) : Option CompleteResponse :=
  if OuijaQuery.hasTimeLeft cfg created_utc now then none
  else
    match OuijaQuery.getTopCompletedResponse st.complete with
    | some topResponse =>
      if topResponse.goodbye.score ≥ OuijaQuery.threshold cfg globalThreshold
      then some topResponse
      else none
    | none => none

mutual
/-- `OuijaQuery.collectResponses(comment, letters)`: Invalid ⇒ remove, stop;
Goodbye ⇒ drop silently when fewer letters than `config.minletters`, else
record a complete response; Letter ⇒ append the symbol, walk the replies
(removing self-replies, deduplicating siblings), and record an incomplete
response when no reply produced a sequence. Returns the updated state and the
JS return value. -/
def collectResponses (cfg : OuijaConfig) (c : RawComment) (letters : List String)
    (st : QueryState) : QueryState × Bool :=
  match c with
  | .mk i b a cr sc bn replies =>
    let comment := OuijaComment.of (.mk i b a cr sc bn replies)
    match comment.type with
    | .Invalid => (removeComment st comment "invalid", false)
    | .Goodbye =>
      if (match cfg.minletters with
          | some m => decide (letters.length < m)
          | none => false) then (st, false)
      else ({ st with complete := st.complete ++ [⟨letters, comment⟩] }, true)
    | .Letter =>
      let letters2 := letters ++ [comment.proxyBody]
      let (st2, hasChildren, _) := collectReplies cfg comment letters2 replies st [] false
      if hasChildren then (st2, true)
      else ({ st2 with incomplete := st2.incomplete ++ [⟨letters2, comment⟩] }, true)

/-- The `for (const reply of comment.replies())` loop inside the Letter case
of `collectResponses`, threading the response state, the per-level
`CommentDuplicateHandler` and the `hasChildren` flag. -/
def collectReplies (cfg : OuijaConfig) (comment : OuijaComment)
    (letters : List String) (replies : List RawComment) (st : QueryState)
    (dupHandler : List (String × OuijaComment)) (hasChildren : Bool) :
    QueryState × Bool × List (String × OuijaComment) :=
  match replies with
  | [] => (st, hasChildren, dupHandler)
  | r :: rest =>
    let reply := OuijaComment.of r
    if reply.author = comment.author then
      collectReplies cfg comment letters rest
        (removeComment st reply "self-reply") dupHandler hasChildren
    else
      let (st2, ok) := collectResponses cfg r letters st
      let (dup2, st3) := CommentDuplicateHandler.handle dupHandler reply st2
      collectReplies cfg comment letters rest st3 dup2 (hasChildren || ok)
end

/-- A reddit submission as the bot reads it. The bot derives the evaluation
config from `selftext` via `parseConfig`; the model passes the resulting
`OuijaConfig` alongside the post (see `OuijaConfig`). -/
structure Post where
  title : String
  distinguished : Option String
  created_utc : Nat
  url : String
  link_flair_text : Option String
  comments : List RawComment

/-- Case-insensitive-ready substring search over character lists. -/
def containsSub (l sub : List Char) : Bool :=
  match l with
  | [] => sub.isEmpty
  | _ :: rest => sub.isPrefixOf l || containsSub rest sub

/-- `this.isMeta = /\[meta\]/i.test(this.post.title)`. -/
def postIsMeta (post : Post) : Bool :=
  containsSub (post.title.toList.map upperChar) "[META]".toList

/-- `this.isModPost = this.post.distinguished === 'moderator'`. -/
def postIsModPost (post : Post) : Bool :=
  decide (post.distinguished = some "moderator")

/-- One iteration of the top-level comment loop in `OuijaQuery.run`:
an Invalid comment is removed unless the post is meta or a moderator post,
and skipped (`continue`, so the duplicate handler does not see it either);
otherwise responses are collected and the comment passed to the run-level
duplicate handler. -/
def OuijaQuery.runStep (cfg : OuijaConfig) (isMeta isModPost : Bool)
    (acc : List (String × OuijaComment) × QueryState) (c : RawComment) :
    List (String × OuijaComment) × QueryState :=
  let (dupHandler, st) := acc
  let comment := OuijaComment.of c
  if comment.type = OuijaComment.Types.Invalid then
    if !isMeta && !isModPost then (dupHandler, removeComment st comment "invalid")
    else (dupHandler, st)
  else
    let (st2, _) := collectResponses cfg c [] st
    CommentDuplicateHandler.handle dupHandler comment st2

/-- `OuijaQuery.run`: walk the top-level comments, then compute the response;
returns the final state, the response, and the `answered` flag (set exactly
when a response was returned). -/
def OuijaQuery.run (cfg : OuijaConfig) (post : Post) (globalThreshold : Int)
    (now : Nat) : QueryState × Option CompleteResponse × Bool :=
  let (_, st) := post.comments.foldl
    (OuijaQuery.runStep cfg (postIsMeta post) (postIsModPost post))
    ([], emptyQueryState)
  let response := OuijaQuery.getResponse cfg globalThreshold post.created_utc now st
  (st, response, response.isSome)

/-- The per-submission outcome that `runQuery` returns to `processPending`. -/
structure QueryRecord where
  post : Post
  responses : QueryState
  answered : Bool

/-- `runQuery`: evaluate one submission. (The flair-update and notification
side effects it also issues are external writes that do not feed back into
the returned query object.) -/
def runQuery (cfg : OuijaConfig) (post : Post) (globalThreshold : Int)
    (now : Nat) : QueryRecord :=
  let (st, _, answered) := OuijaQuery.run cfg post globalThreshold now
  ⟨post, st, answered⟩

/-- `os.EOL` on the bot's Linux host. -/
def EOL : String := "\n"

/-- `createPendingWikiMarkdown`: the "Pending" table of complete responses. -/
def createPendingWikiMarkdown (query : QueryRecord) : String :=
  let header := "#### Pending" ++ EOL ++ "Letters | Score" ++ EOL ++ "--------|------" ++ EOL
  query.responses.complete.foldl
    (fun markdown pending =>
      let joined := String.join pending.letters
      let answer := if joined = "" then "[blank]" else joined
      let url := query.post.url ++ pending.goodbye.snooObj.id ++ "?context=999"
      markdown ++ "[" ++ answer ++ "](" ++ url ++ ") | "
        ++ toString pending.goodbye.score ++ EOL)
    header

/-- `createIncompleteWikiMarkdown`: the "Incomplete" table. -/
def createIncompleteWikiMarkdown (query : QueryRecord) : String :=
  let header := "#### Incomplete" ++ EOL ++ "Letters |" ++ EOL ++ "--------|" ++ EOL
  query.responses.incomplete.foldl
    (fun markdown sequence =>
      let answer := String.join sequence.letters
      let url := query.post.url ++ sequence.lastComment.snooObj.id ++ "?context=999"
      markdown ++ "[" ++ answer ++ "](" ++ url ++ ") |" ++ EOL)
    header

/-- `processPending`: build the "unanswered" wiki text over the evaluated
queries in reverse order, skipping exactly the answered ones; each remaining
query contributes a title heading plus its non-empty candidate tables. -/
def processPending (queries : List QueryRecord) : String :=
  queries.reverse.foldl
    (fun text query =>
      if query.answered then text
      else
        let text2 := text ++ "### [" ++ query.post.title ++ "](" ++ query.post.url ++ ")" ++ EOL
        let text3 := if query.responses.complete.length ≠ 0
          then text2 ++ createPendingWikiMarkdown query else text2
        if query.responses.incomplete.length ≠ 0
          then text3 ++ createIncompleteWikiMarkdown query else text3)
    ""

/-! ## Spec-side definitions

Definitions written from the specification's words, to be compared with the
definitions embedded from the source. -/

/-- Spec §4.5.3 wording: "among complete sequences, select the one whose
terminator has the highest score (ties broken by first-encountered in
traversal order, i.e., stable select of max)" — the first response whose
goodbye score is greater than or equal to every response's goodbye score. -/
def specTopCompletedResponse (complete : List CompleteResponse) :
    Option CompleteResponse :=
  complete.find?
    (fun r => complete.all (fun s => decide (s.goodbye.score ≤ r.goodbye.score)))

/-- One entry of the unanswered summary per the spec's wording: heading with
the submission title linked to its URL, then the candidate tables when
non-empty. -/
def specSummaryEntry (query : QueryRecord) : String :=
  "### [" ++ query.post.title ++ "](" ++ query.post.url ++ ")" ++ EOL
    ++ (if query.responses.complete.length ≠ 0 then createPendingWikiMarkdown query else "")
    ++ (if query.responses.incomplete.length ≠ 0 then createIncompleteWikiMarkdown query else "")

/-- Claim C9's wording of normalization: like `parseBody` but removing *all*
literal backslash escape characters (the source removes only the first). -/
def specParseBodyAllEscapes (body : String) : String :=
  if body = "[deleted]" then "*"
  else
    let b1 := String.mk (stripLinksAux body.toList)
    let b2 := String.mk (trimChars (b1.toList.filter (fun c => !(c = '\\'))))
    let b3 := if countSymbols b2 > 1 then String.mk (b2.toList.filter isWordChar) else b2
    if b3 = "ß" then b3 else String.mk (b3.toList.map upperChar)

/-! ## Helper lemmas -/

/-- The running "best response so far" of `getTopCompletedResponse`'s fold,
once it is non-empty. -/
def bestFrom (t : CompleteResponse) : List CompleteResponse → CompleteResponse
  | [] => t
  | r :: rs => bestFrom (if r.goodbye.score > t.goodbye.score then r else t) rs

theorem foldl_top_eq_bestFrom (l : List CompleteResponse) (t : CompleteResponse) :
    l.foldl
      (fun top response =>
        match top with
        | none => some response
        | some t =>
          if response.goodbye.score > t.goodbye.score then some response else some t)
      (some t) = some (bestFrom t l) := by
  induction l generalizing t with
  | nil => rfl
  | cons r rs ih =>
    simp only [List.foldl_cons, bestFrom]
    split
    · exact ih r
    · exact ih t

theorem bestFrom_le (l : List CompleteResponse) (t : CompleteResponse) :
    ∀ s ∈ t :: l, s.goodbye.score ≤ (bestFrom t l).goodbye.score := by
  induction l generalizing t with
  | nil =>
    intro s hs
    simp only [List.mem_singleton] at hs
    subst hs
    exact le_refl _
  | cons r rs ih =>
    intro s hs
    simp only [bestFrom]
    have hbase : ∀ u ∈ (if r.goodbye.score > t.goodbye.score then r else t) :: rs,
        u.goodbye.score ≤ (bestFrom (if r.goodbye.score > t.goodbye.score then r else t) rs).goodbye.score :=
      ih _
    rcases List.mem_cons.mp hs with h1 | h2
    · subst h1
      refine le_trans ?_ (hbase _ (List.mem_cons_self _ _))
      split
      · rename_i hgt; exact le_of_lt hgt
      · exact le_refl _
    · rcases List.mem_cons.mp h2 with h3 | h4
      · subst h3
        refine le_trans ?_ (hbase _ (List.mem_cons_self _ _))
        split
        · exact le_refl _
        · rename_i hgt; exact le_of_not_lt hgt
      · exact hbase _ (List.mem_cons_of_mem _ h4)

theorem bestFrom_split (l : List CompleteResponse) (t : CompleteResponse) :
    ∃ pre post, t :: l = pre ++ bestFrom t l :: post ∧
      ∀ s ∈ pre, s.goodbye.score < (bestFrom t l).goodbye.score := by
  induction l generalizing t with
  | nil => exact ⟨[], [], rfl, by simp⟩
  | cons r rs ih =>
    by_cases hc : r.goodbye.score > t.goodbye.score
    · obtain ⟨pre, post, heq, hlt⟩ := ih r
      have hb : bestFrom t (r :: rs) = bestFrom r rs := by
        simp only [bestFrom, if_pos hc]
      refine ⟨t :: pre, post, ?_, ?_⟩
      · rw [hb]
        simpa using congrArg (List.cons t) heq
      · intro s hs
        rw [hb]
        rcases List.mem_cons.mp hs with h1 | h2
        · subst h1
          exact lt_of_lt_of_le hc (bestFrom_le rs r r (List.mem_cons_self _ _))
        · exact hlt s h2
    · obtain ⟨pre, post, heq, hlt⟩ := ih t
      have hb : bestFrom t (r :: rs) = bestFrom t rs := by
        simp only [bestFrom, if_neg hc]
      cases pre with
      | nil =>
        simp only [List.nil_append] at heq
        injection heq with h1 h2
        exact ⟨[], r :: rs, by simp only [List.nil_append, hb, ← h1], by simp⟩
      | cons p pre2 =>
        simp only [List.cons_append] at heq
        injection heq with hp hrs
        subst hp
        refine ⟨t :: r :: pre2, post, ?_, ?_⟩
        · rw [hb]
          simp only [List.cons_append]
          rw [← hrs]
        · intro s hs
          rw [hb]
          rcases List.mem_cons.mp hs with h1 | h2
          · subst h1
            exact hlt s (List.mem_cons_self _ _)
          · rcases List.mem_cons.mp h2 with h3 | h4
            · subst h3
              exact lt_of_le_of_lt (le_of_not_lt hc) (hlt t (List.mem_cons_self _ _))
            · exact hlt s (List.mem_cons_of_mem _ h4)

theorem find?_append_of_false {α : Type} (p : α → Bool) (pre rest : List α)
    (h : ∀ x ∈ pre, p x = false) :
    (pre ++ rest).find? p = rest.find? p := by
  induction pre with
  | nil => rfl
  | cons a pre2 ih =>
    simp only [List.cons_append, List.find?]
    rw [h a (List.mem_cons_self _ _)]
    exact ih (fun x hx => h x (List.mem_cons_of_mem _ hx))

/-- The code's fold (`getTopCompletedResponse`) computes exactly the
spec-worded stable maximum (`specTopCompletedResponse`). -/
theorem getTop_eq_specTop (complete : List CompleteResponse) :
    OuijaQuery.getTopCompletedResponse complete = specTopCompletedResponse complete := by
  cases complete with
  | nil => rfl
  | cons t l =>
    unfold OuijaQuery.getTopCompletedResponse specTopCompletedResponse
    rw [List.foldl_cons]
    show List.foldl _ (some t) l = _
    rw [foldl_top_eq_bestFrom]
    obtain ⟨pre, post, heq, hlt⟩ := bestFrom_split l t
    set b := bestFrom t l with hbdef
    set p : CompleteResponse → Bool :=
      fun r => (t :: l).all (fun s => decide (s.goodbye.score ≤ r.goodbye.score)) with hpdef
    have hbmem : b ∈ t :: l := by
      rw [heq]
      exact List.mem_append_right _ (List.mem_cons_self _ _)
    have hpb : p b = true := by
      rw [hpdef]
      simp only [List.all_eq_true, decide_eq_true_eq]
      intro s hs
      exact bestFrom_le l t s hs
    have hpre : ∀ x ∈ pre, p x = false := by
      intro x hx
      rcases Bool.eq_false_or_eq_true (p x) with ht2 | hf
      swap
      · exact hf
      · exfalso
        rw [hpdef] at ht2
        simp only [List.all_eq_true, decide_eq_true_eq] at ht2
        exact absurd (ht2 b hbmem) (not_le.mpr (hlt x hx))
    rw [heq, find?_append_of_false p pre (b :: post) hpre]
    rw [List.find?_cons_of_pos _ hpb]

theorem stripLinksAux_no_bracket (l : List Char) (h : '[' ∉ l) : stripLinksAux l = l := by
  induction l with
  | nil => rw [stripLinksAux]
  | cons c rest ih =>
    rw [stripLinksAux]
    rw [if_neg (show ¬c = '[' from fun hc => h (by rw [hc]; exact List.mem_cons_self _ _))]
    rw [ih (fun hm => h (List.mem_cons_of_mem _ hm))]

/-- On a body without `'['` the link regex never matches, so `parseBody`
reduces to the later normalization steps (which are all structural and hence
computable by `decide`). -/
theorem parseBody_bracketFree (body : String) (h : '[' ∉ body.toList) :
    parseBody body =
      (let b2 := String.mk (trimChars (removeFirst '\\' body.toList))
       let b3 := if countSymbols b2 > 1 then String.mk (b2.toList.filter isWordChar) else b2
       if b3 = "ß" then b3 else String.mk (b3.toList.map upperChar)) := by
  have hne : body ≠ "[deleted]" := by
    intro he
    rw [he] at h
    exact h (by decide)
  unfold parseBody
  rw [if_neg hne, stripLinksAux_no_bracket _ h]
  rfl

theorem char_ofNat_toNat_small : ∀ n < 123, (Char.ofNat n).toNat = n := by decide

theorem upperChar_idem (c : Char) : upperChar (upperChar c) = upperChar c := by
  unfold upperChar
  by_cases h : 97 ≤ c.toNat ∧ c.toNat ≤ 122
  · rw [if_pos h]
    have h2 : (Char.ofNat (c.toNat - 32)).toNat = c.toNat - 32 :=
      char_ofNat_toNat_small _ (by omega)
    rw [h2]
    rw [if_neg (by omega)]
  · rw [if_neg h, if_neg h]

/-- Every normalized body is a fixed point of upper-casing: `parseBody` ends
in `toUpperCase` except for the `"*"` and `"ß"` early returns, which contain
no lower-case ASCII letter. -/
theorem parseBody_upper_fixed (raw : String) :
    (parseBody raw).toList.map upperChar = (parseBody raw).toList := by
  simp only [parseBody]
  split
  · decide
  · split
    · split
      · rename_i hss
        rw [hss]
        decide
      · simp only [String.toList, List.map_map]
        exact List.map_congr_left (fun c _ => upperChar_idem c)
    · split
      · rename_i hss
        rw [hss]
        decide
      · simp only [String.toList, List.map_map]
        exact List.map_congr_left (fun c _ => upperChar_idem c)

/-- On normalized bodies the case-insensitive GOODBYE prefix test of the spec
agrees with the source's case-sensitive regex `/^GOODBYE/`. -/
theorem goodbyeCI_eq_regex_on_parsed (raw : String) :
    goodbyeCITest (parseBody raw) = goodbyeRegexTest (parseBody raw) := by
  unfold goodbyeCITest goodbyeRegexTest
  rw [parseBody_upper_fixed]

theorem OuijaComment.of_snooObj (c : RawComment) : (OuijaComment.of c).snooObj = c := by
  simp only [OuijaComment.of]
  split
  · rfl
  · split
    · rfl
    · split
      · rfl
      · rfl

theorem OuijaComment.of_removed (c : RawComment) :
    (OuijaComment.of c).removed = c.banned_by := by
  simp only [OuijaComment.of]
  split
  · rename_i hb
    rw [hb]
  · rename_i hb
    have hb2 : c.banned_by = false := by
      cases hcb : c.banned_by
      · rfl
      · exact absurd hcb hb
    rw [hb2]
    split
    · rfl
    · split
      · rfl
      · rfl

theorem string_append_assoc (a b c : String) : a ++ b ++ c = a ++ (b ++ c) := by
  apply String.ext
  simp

theorem assocFind_none_keys {comments : List (String × OuijaComment)} {key : String}
    (h : assocFind comments key = none) : ∀ e ∈ comments, e.1 ≠ key := by
  induction comments with
  | nil => intro e he; cases he
  | cons p rest ih =>
    intro e he
    rw [assocFind] at h
    split at h
    · cases h
    · rcases List.mem_cons.mp he with h1 | h2
      · subst h1; assumption
      · exact ih h e h2

theorem assocUpdate_keys_of_found {comments : List (String × OuijaComment)}
    {key : String} {e : OuijaComment} (c : OuijaComment)
    (h : assocFind comments key = some e) :
    (assocUpdate comments key c).map Prod.fst = comments.map Prod.fst := by
  induction comments with
  | nil => rw [assocFind] at h; cases h
  | cons p rest ih =>
    rw [assocFind] at h
    rw [assocUpdate]
    split at h
    · rename_i hk
      rw [if_pos hk]
      simp [hk]
    · rename_i hk
      rw [if_neg hk]
      simp only [List.map_cons, List.cons.injEq, true_and]
      exact ih h

theorem assocUpdate_mem {comments : List (String × OuijaComment)} {key : String}
    {c : OuijaComment} {e : String × OuijaComment}
    (h : e ∈ assocUpdate comments key c) : e ∈ comments ∨ e = (key, c) := by
  induction comments with
  | nil =>
    rw [assocUpdate] at h
    simp only [List.mem_singleton] at h
    exact Or.inr h
  | cons p rest ih =>
    rw [assocUpdate] at h
    split at h
    · rcases List.mem_cons.mp h with h1 | h2
      · exact Or.inr h1
      · exact Or.inl (List.mem_cons_of_mem _ h2)
    · rcases List.mem_cons.mp h with h1 | h2
      · exact Or.inl (h1 ▸ List.mem_cons_self _ _)
      · rcases ih h2 with h3 | h4
        · exact Or.inl (List.mem_cons_of_mem _ h3)
        · exact Or.inr h4

/-- The invariant of the duplicate handler's retained map: keys are distinct
and every retained comment's proxied body read (`proxyBody`) is its key. -/
def HandleInv (comments : List (String × OuijaComment)) : Prop :=
  (comments.map Prod.fst).Nodup ∧ ∀ e ∈ comments, e.2.proxyBody = e.1

theorem handle_preserves_inv (comments : List (String × OuijaComment))
    (c : OuijaComment) (st : QueryState) (h : HandleInv comments) :
    HandleInv (CommentDuplicateHandler.handle comments c st).1 := by
  obtain ⟨hnd, hbody⟩ := h
  simp only [CommentDuplicateHandler.handle]
  split
  · rename_i existing hf
    split
    · exact ⟨hnd, hbody⟩
    · split
      · refine ⟨?_, ?_⟩
        · show (List.map Prod.fst (assocUpdate comments c.proxyBody c)).Nodup
          rw [assocUpdate_keys_of_found c hf]
          exact hnd
        · intro e he
          rcases assocUpdate_mem he with h1 | h2
          · exact hbody e h1
          · rw [h2]
      · exact ⟨hnd, hbody⟩
  · rename_i hf
    refine ⟨?_, ?_⟩
    · show (List.map Prod.fst (comments ++ [(c.proxyBody, c)])).Nodup
      rw [List.map_append]
      apply List.Nodup.append hnd (by simp)
      intro k hk1 hk2
      simp only [List.map_cons, List.map_nil, List.mem_singleton] at hk2
      obtain ⟨e, he, hek⟩ := List.mem_map.mp hk1
      exact absurd (hek.trans hk2) (assocFind_none_keys hf e he)
    · intro e he
      rcases List.mem_append.mp he with h1 | h2
      · exact hbody e h1
      · simp only [List.mem_singleton] at h2
        rw [h2]

theorem foldl_handle_inv (cs : List OuijaComment)
    (acc : List (String × OuijaComment) × QueryState) (h : HandleInv acc.1) :
    HandleInv (cs.foldl
      (fun acc c => CommentDuplicateHandler.handle acc.1 c acc.2) acc).1 := by
  induction cs generalizing acc with
  | nil => exact h
  | cons c rest ih =>
    rw [List.foldl_cons]
    exact ih _ (handle_preserves_inv acc.1 c acc.2 h)

/-! ## Fixtures -/

/-- Terminator comment scored 5 (complete sequence fixture). -/
def exGoodbye5 : OuijaComment := OuijaComment.of (.mk "g5" "GOODBYE" "u5" 10 5 false [])

/-- Terminator comment scored 9 (complete sequence fixture). -/
def exGoodbye9 : OuijaComment := OuijaComment.of (.mk "g9" "GOODBYE" "u9" 20 9 false [])

def exResponse5 : CompleteResponse := ⟨["H", "I"], exGoodbye5⟩

def exResponse9 : CompleteResponse := ⟨["Y", "O"], exGoodbye9⟩

/-- Evaluation state holding two complete sequences scored 5 and 9. -/
def exState59 : QueryState := ⟨[exResponse5, exResponse9], [], []⟩

/-! ## Claims -/

/-- C1: for every evaluation that is not pending, the selected response is the
complete sequence whose terminator has the highest score with ties broken by
first traversal order (the code's fold equals the spec's stable maximum), and
it is returned as winner exactly when its score reaches the effective
threshold (config minscore when present, else the global default); with
complete sequences scored 5 and 9, threshold 8 yields the 9-sequence as
winner and threshold 10 yields no winner. -/
theorem c1_resolution_stable_max :
    (∀ complete, OuijaQuery.getTopCompletedResponse complete
        = specTopCompletedResponse complete)
    ∧ (∀ cfg globalThreshold created_utc now st,
        OuijaQuery.hasTimeLeft cfg created_utc now = false →
        OuijaQuery.getResponse cfg globalThreshold created_utc now st =
          match specTopCompletedResponse st.complete with
          | some top =>
            if top.goodbye.score ≥ OuijaQuery.threshold cfg globalThreshold
            then some top else none
          | none => none)
    ∧ OuijaQuery.getResponse ⟨some 8, none, none⟩ 0 0 0 exState59 = some exResponse9
    ∧ OuijaQuery.getResponse ⟨some 10, none, none⟩ 0 0 0 exState59 = none := by
  refine ⟨getTop_eq_specTop, ?_, ?_, ?_⟩
  · intro cfg globalThreshold created_utc now st h
    unfold OuijaQuery.getResponse
    rw [h, getTop_eq_specTop]
    rfl
  · simp [OuijaQuery.getResponse, OuijaQuery.hasTimeLeft,
      OuijaQuery.getTopCompletedResponse, OuijaQuery.threshold, exState59,
      exResponse5, exResponse9, exGoodbye5, exGoodbye9, OuijaComment.of,
      OuijaComment.score, RawComment.score, RawComment.body, RawComment.banned_by,
      parseBody_bracketFree "GOODBYE" (by decide), countSymbols, goodbyeRegexTest,
      trimChars, removeFirst, isJsWhitespace, isWordChar, upperChar]
  · simp [OuijaQuery.getResponse, OuijaQuery.hasTimeLeft,
      OuijaQuery.getTopCompletedResponse, OuijaQuery.threshold, exState59,
      exResponse5, exResponse9, exGoodbye5, exGoodbye9, OuijaComment.of,
      OuijaComment.score, RawComment.score, RawComment.body, RawComment.banned_by,
      parseBody_bracketFree "GOODBYE" (by decide), countSymbols, goodbyeRegexTest,
      trimChars, removeFirst, isJsWhitespace, isWordChar, upperChar]

/-- Witness for C1: the non-pending branch applied at a concrete state. -/
theorem c1_resolution_stable_max_witness :
    OuijaQuery.getResponse ⟨some 8, none, none⟩ 5 0 0 exState59 =
      (match specTopCompletedResponse exState59.complete with
       | some top =>
         if top.goodbye.score ≥ OuijaQuery.threshold ⟨some 8, none, none⟩ 5
         then some top else none
       | none => none) :=
  c1_resolution_stable_max.2.1 ⟨some 8, none, none⟩ 5 0 0 exState59 rfl

/-- C2: when a wait duration is configured and the current time is strictly
before creation time plus that duration, the resolution returns no winner
regardless of the collected sequences; when no wait duration is configured
the evaluation is never pending on time grounds. -/
theorem c2_pending_wait_duration :
    (∀ cfg globalThreshold created_utc now st duration,
      cfg.time = some duration → now < created_utc + duration →
      OuijaQuery.getResponse cfg globalThreshold created_utc now st = none)
    ∧ (∀ cfg created_utc now, cfg.time = none →
      OuijaQuery.hasTimeLeft cfg created_utc now = false) := by
  constructor
  · intro cfg globalThreshold created_utc now st duration ht hlt
    unfold OuijaQuery.getResponse OuijaQuery.hasTimeLeft
    rw [ht]
    simp [hlt]
  · intro cfg created_utc now ht
    unfold OuijaQuery.hasTimeLeft
    rw [ht]

/-- Witness for C2: a pending evaluation with a qualifying scored sequence
still yields no winner; an absent duration is never pending. -/
theorem c2_pending_wait_duration_witness :
    OuijaQuery.getResponse ⟨some 0, none, some 3600⟩ 0 0 100 exState59 = none
    ∧ OuijaQuery.hasTimeLeft ⟨none, none, none⟩ 0 100 = false :=
  ⟨c2_pending_wait_duration.1 ⟨some 0, none, some 3600⟩ 0 0 100 exState59 3600
      rfl (by decide),
   c2_pending_wait_duration.2 ⟨none, none, none⟩ 0 100 rfl⟩

/-- C3: classification is total and assigns exactly one of
{Letter, Terminator(Goodbye), Invalid}, in priority order: banned ⇒ Invalid;
normalized body of exactly one symbol ⇒ Letter; normalized body matching the
case-insensitive prefix GOODBYE ⇒ Terminator; otherwise Invalid; never both
Letter and Terminator. -/
theorem c3_classification_total_exclusive (c : RawComment) :
    ((OuijaComment.of c).type = .Letter ∨ (OuijaComment.of c).type = .Goodbye
      ∨ (OuijaComment.of c).type = .Invalid)
    ∧ (c.banned_by = true → (OuijaComment.of c).type = .Invalid)
    ∧ (c.banned_by = false → countSymbols (parseBody c.body) = 1 →
        (OuijaComment.of c).type = .Letter)
    ∧ (c.banned_by = false → countSymbols (parseBody c.body) ≠ 1 →
        goodbyeCITest (parseBody c.body) = true →
        (OuijaComment.of c).type = .Goodbye)
    ∧ (c.banned_by = false → countSymbols (parseBody c.body) ≠ 1 →
        goodbyeCITest (parseBody c.body) = false →
        (OuijaComment.of c).type = .Invalid)
    ∧ ¬((OuijaComment.of c).type = .Letter ∧ (OuijaComment.of c).type = .Goodbye) := by
  have hci := goodbyeCI_eq_regex_on_parsed c.body
  refine ⟨?_, ?_, ?_, ?_, ?_, ?_⟩
  · cases h : (OuijaComment.of c).type
    · exact Or.inl rfl
    · exact Or.inr (Or.inl rfl)
    · exact Or.inr (Or.inr rfl)
  · intro hb
    simp [OuijaComment.of, hb]
  · intro hb h1
    simp [OuijaComment.of, hb, h1]
  · intro hb h1 h2
    rw [hci] at h2
    simp [OuijaComment.of, hb, h1, h2]
  · intro hb h1 h2
    rw [hci] at h2
    simp [OuijaComment.of, hb, h1, h2]
  · intro ⟨hl, hg⟩
    rw [hl] at hg
    cases hg

/-- Witness for C3: a lower-case goodbye body normalizes to upper case and is
classified Terminator through the case-insensitive clause. -/
theorem c3_classification_total_exclusive_witness :
    (OuijaComment.of (.mk "w" "goodbye folks" "u" 0 0 false [])).type = .Goodbye :=
  (c3_classification_total_exclusive _).2.2.2.1 rfl
    (by rw [show (RawComment.mk "w" "goodbye folks" "u" 0 0 false []).body
          = "goodbye folks" from rfl,
        parseBody_bracketFree "goodbye folks" (by decide)]; decide)
    (by rw [show (RawComment.mk "w" "goodbye folks" "u" 0 0 false []).body
          = "goodbye folks" from rfl]
        unfold goodbyeCITest
        rw [parseBody_bracketFree "goodbye folks" (by decide)]
        decide)

/-- Counterexample to C6 as stated: the body `"👍🏽"` (U+1F44D U+1F3FD, a thumbs
up with a medium skin-tone modifier) renders as a single displayable emoji
symbol, yet `countSymbols` — `Array.from(string).length`, which counts code
points, not grapheme clusters — counts 2, so the non-word strip empties the
body and the comment classifies Invalid, not Letter. -/
theorem c6_multi_code_point_emoji_cex :
    countSymbols "👍🏽" = 2
    ∧ (OuijaComment.of (.mk "e2" "👍🏽" "user" 0 0 false [])).type
        = OuijaComment.Types.Invalid := by
  have hpb : parseBody "👍🏽" = "" := by
    rw [parseBody_bracketFree "👍🏽" (by decide)]
    decide
  constructor
  · decide
  · simp [OuijaComment.of, RawComment.body, RawComment.banned_by, hpb,
      countSymbols, goodbyeRegexTest]

/-- C6 (amended): symbols are counted as Unicode code points, so every
non-banned comment whose normalized body is exactly one code point —
including an emoji that is one code point even though it is several UTF-16
code units, such as `"😀"` — counts 1 and classifies Letter; an emoji composed
of several code points counts more than 1 and is not a Letter. -/
theorem c6_single_code_point_letter :
    (∀ c : RawComment, c.banned_by = false → countSymbols (parseBody c.body) = 1 →
      (OuijaComment.of c).type = OuijaComment.Types.Letter)
    ∧ countSymbols "😀" = 1
    ∧ parseBody "😀" = "😀"
    ∧ (OuijaComment.of (.mk "e1" "😀" "user" 0 0 false [])).type
        = OuijaComment.Types.Letter := by
  have hpb : parseBody "😀" = "😀" := by
    rw [parseBody_bracketFree "😀" (by decide)]
    decide
  refine ⟨?_, by decide, hpb, ?_⟩
  · intro c hb h1
    simp [OuijaComment.of, hb, h1]
  · simp [OuijaComment.of, RawComment.body, RawComment.banned_by, hpb, countSymbols]

/-- Witness for C6 (amended): a one-letter body classifies Letter. -/
theorem c6_single_code_point_letter_witness :
    (OuijaComment.of (.mk "e3" "x" "user" 0 0 false [])).type
      = OuijaComment.Types.Letter :=
  c6_single_code_point_letter.1 _ rfl
    (by rw [show (RawComment.mk "e3" "x" "user" 0 0 false []).body = "x" from rfl,
          parseBody_bracketFree "x" (by decide)]
        decide)

/-- Counterexample to C9 as stated: JS `String.prototype.replace` with the
string pattern `'\\'` removes only the first backslash, so the raw body of
two backslashes normalizes to one backslash, while removing *all* escape
characters (`specParseBodyAllEscapes`, the claim's wording) would yield the
empty string. -/
theorem c9_backslash_removal_cex :
    parseBody "\\\\" = "\\"
    ∧ specParseBodyAllEscapes "\\\\" = ""
    ∧ parseBody "\\\\" ≠ specParseBodyAllEscapes "\\\\" := by
  have h1 : parseBody "\\\\" = "\\" := by
    rw [parseBody_bracketFree "\\\\" (by decide)]
    decide
  have h2 : specParseBodyAllEscapes "\\\\" = "" := by
    unfold specParseBodyAllEscapes
    rw [if_neg (by decide), stripLinksAux_no_bracket _ (by decide)]
    decide
  exact ⟨h1, h2, by rw [h1, h2]; decide⟩

/-- Normalization steps 4–7 (symbol count, non-word strip, sharp-s special
case, upper-casing), shared by the pipelines compared in C9. -/
def specNormalizeTail (l : List Char) : String :=
  let b2 := String.mk l
  let b3 := if countSymbols b2 > 1 then String.mk (b2.toList.filter isWordChar) else b2
  if b3 = "ß" then b3 else String.mk (b3.toList.map upperChar)

/-- C9 (amended): after stripping markdown hyperlink syntax, normalization
removes exactly the *first* literal backslash escape character (not all of
them) and trims surrounding whitespace, then applies the remaining steps. -/
theorem c9_first_escape_then_trim :
    (∀ l : List Char, '\\' ∈ l → ∃ l₁ l₂, l = l₁ ++ '\\' :: l₂ ∧ '\\' ∉ l₁ ∧
        removeFirst '\\' l = l₁ ++ l₂)
    ∧ (∀ l : List Char, '\\' ∉ l → removeFirst '\\' l = l)
    ∧ (∀ body : String, body ≠ "[deleted]" →
        parseBody body =
          specNormalizeTail (trimChars (removeFirst '\\' (stripLinksAux body.toList)))) := by
  refine ⟨?_, ?_, ?_⟩
  · intro l hm
    induction l with
    | nil => cases hm
    | cons c rest ih =>
      by_cases hc : c = '\\'
      · subst hc
        exact ⟨[], rest, rfl, by simp, by rw [removeFirst]; simp⟩
      · have hm2 : '\\' ∈ rest := by
          rcases List.mem_cons.mp hm with hx | hx
          · exact absurd hx.symm hc
          · exact hx
        obtain ⟨l₁, l₂, he, hn, hr⟩ := ih hm2
        refine ⟨c :: l₁, l₂, by rw [List.cons_append, ← he], ?_, ?_⟩
        · intro hmem
          rcases List.mem_cons.mp hmem with hx | hx
          · exact hc hx.symm
          · exact hn hx
        · rw [removeFirst, if_neg hc, hr, List.cons_append]
  · intro l hm
    induction l with
    | nil => rw [removeFirst]
    | cons c rest ih =>
      rw [removeFirst,
        if_neg (show ¬c = '\\' from fun hc => hm (by rw [hc]; exact List.mem_cons_self _ _)),
        ih (fun hx => hm (List.mem_cons_of_mem _ hx))]
  · intro body hne
    unfold parseBody specNormalizeTail
    rw [if_neg hne]
    rfl

/-- Witness for C9 (amended): the decomposition at a concrete list and the
pipeline equation at a concrete body. -/
theorem c9_first_escape_then_trim_witness :
    (∃ l₁ l₂, ['\\', 'a', '\\'] = l₁ ++ '\\' :: l₂ ∧ '\\' ∉ l₁ ∧
        removeFirst '\\' ['\\', 'a', '\\'] = l₁ ++ l₂)
    ∧ parseBody "ab"
        = specNormalizeTail (trimChars (removeFirst '\\' (stripLinksAux "ab".toList))) :=
  ⟨c9_first_escape_then_trim.1 ['\\', 'a', '\\'] (by decide),
   c9_first_escape_then_trim.2.2 "ab" (by decide)⟩

/-- C10: a raw body of exactly `"[deleted]"` normalizes to the placeholder
`"*"`, a non-banned comment with that body classifies Letter, and as a leaf
it contributes the symbol `"*"` to the accumulated spelling (the recorded
incomplete sequence is the accumulated letters plus `"*"`). -/
theorem c10_deleted_placeholder :
    parseBody "[deleted]" = "*"
    ∧ (∀ i a cr sc replies,
        (OuijaComment.of (.mk i "[deleted]" a cr sc false replies)).type
            = OuijaComment.Types.Letter
        ∧ (OuijaComment.of (.mk i "[deleted]" a cr sc false replies)).body = "*")
    ∧ (∀ cfg i a cr sc letters st,
        collectResponses cfg (.mk i "[deleted]" a cr sc false []) letters st =
          ({ st with incomplete := st.incomplete
              ++ [⟨letters ++ ["*"],
                   OuijaComment.of (.mk i "[deleted]" a cr sc false [])⟩] },
           true)) := by
  refine ⟨rfl, fun i a cr sc replies => ⟨rfl, rfl⟩, ?_⟩
  intro cfg i a cr sc letters st
  have hty : (OuijaComment.of (.mk i "[deleted]" a cr sc false [])).type
      = OuijaComment.Types.Letter := rfl
  have hproxy : (OuijaComment.of (.mk i "[deleted]" a cr sc false [])).proxyBody
      = "*" := rfl
  simp only [collectResponses, hty, hproxy, collectReplies, Bool.false_eq_true,
    if_false]

/-- Sibling fixtures for the deduplication claim: identical (non-empty)
normalized bodies, created at times 5 < 9, neither with replies. -/
def exDup1 : OuijaComment :=
  ⟨.mk "d1" "X" "u2" 5 1 false [], "X", OuijaComment.Types.Letter, false⟩

def exDup2 : OuijaComment :=
  ⟨.mk "d2" "X" "u3" 9 1 false [], "X", OuijaComment.Types.Letter, false⟩

/-- Siblings whose bodies `"??"` and `"!!"` both normalize to the empty
string: identical normalized bodies but distinct raw bodies, created at times
5 < 9, neither with replies. -/
def exEmptyBody1 : OuijaComment := OuijaComment.of (.mk "n1" "??" "u2" 5 1 false [])

def exEmptyBody2 : OuijaComment := OuijaComment.of (.mk "n2" "!!" "u3" 9 1 false [])

/-- A letter parent whose two replies normalize to the empty body: fixture
for the end-to-end part of the deduplication counterexample. -/
def exNestedParent : RawComment :=
  .mk "p1" "A" "u1" 1 1 false
    [.mk "n1" "??" "u2" 5 1 false [], .mk "n2" "!!" "u3" 9 1 false []]

def exNestedPost : Post := ⟨"q2", none, 0, "http://y/", none, [exNestedParent]⟩

/-- Counterexample to C7 as stated: the dedup key is `comment.body` read
through the constructor's Proxy, whose `||` falls through on the falsy empty
string. The siblings `"??"` and `"!!"` both normalize to `""` — identical
normalized bodies, created at 5 < 9, neither with replies — yet they are
keyed by their distinct raw bodies, so the handler retains *both* and removes
neither; in a full traversal of a post containing them the removal log shows
only the two `invalid` removals and no `duplicate` removal. -/
theorem c7_empty_body_both_retained_cex :
    exEmptyBody1.body = "" ∧ exEmptyBody2.body = ""
    ∧ exEmptyBody1.hasReplies = false ∧ exEmptyBody2.hasReplies = false
    ∧ exEmptyBody1.created < exEmptyBody2.created
    ∧ CommentDuplicateHandler.handle [] exEmptyBody1 emptyQueryState
        = ([("??", exEmptyBody1)], emptyQueryState)
    ∧ CommentDuplicateHandler.handle [("??", exEmptyBody1)] exEmptyBody2
        emptyQueryState
        = ([("??", exEmptyBody1), ("!!", exEmptyBody2)], emptyQueryState)
    ∧ (OuijaQuery.run ⟨none, none, none⟩ exNestedPost 10 100).1.removals
        = [("n1", "invalid"), ("n2", "invalid")] := by
  have h1 : exEmptyBody1
      = ⟨.mk "n1" "??" "u2" 5 1 false [], "", OuijaComment.Types.Invalid, false⟩ := by
    simp [exEmptyBody1, OuijaComment.of, RawComment.body, RawComment.banned_by,
      parseBody_bracketFree "??" (by decide), countSymbols, goodbyeRegexTest,
      trimChars, removeFirst, isJsWhitespace, isWordChar, upperChar]
  have h2 : exEmptyBody2
      = ⟨.mk "n2" "!!" "u3" 9 1 false [], "", OuijaComment.Types.Invalid, false⟩ := by
    simp [exEmptyBody2, OuijaComment.of, RawComment.body, RawComment.banned_by,
      parseBody_bracketFree "!!" (by decide), countSymbols, goodbyeRegexTest,
      trimChars, removeFirst, isJsWhitespace, isWordChar, upperChar]
  refine ⟨by rw [h1], by rw [h2], by rw [h1]; rfl, by rw [h2]; rfl,
    by rw [h1, h2]; decide, by rw [h1]; rfl, by rw [h1, h2]; rfl, ?_⟩
  simp [OuijaQuery.run, OuijaQuery.runStep, exNestedPost, exNestedParent,
    collectResponses, collectReplies, OuijaComment.of, parseBody,
    stripLinksAux, matchLinkAfterBracket, immediateClose, findCloseParen,
    trimChars, removeFirst, countSymbols, isWordChar, upperChar, isJsWhitespace,
    isDotChar, goodbyeRegexTest, removeComment, CommentDuplicateHandler.handle,
    assocFind, assocUpdate, OuijaComment.hasReplies, OuijaComment.author,
    OuijaComment.created, OuijaComment.score, OuijaComment.proxyBody,
    RawComment.id, RawComment.body, RawComment.author, RawComment.created_utc,
    RawComment.score, RawComment.banned_by, RawComment.replies, emptyQueryState,
    postIsMeta, postIsModPost, containsSub, OuijaQuery.getResponse,
    OuijaQuery.hasTimeLeft, OuijaQuery.getTopCompletedResponse,
    OuijaQuery.threshold]

/-- C7 (amended): the deduplicator keys each sibling by its normalized body
when that is non-empty, falling back to the raw body (the Proxy's falsy
fallthrough); processing any sibling group in order it never retains two
siblings with the same key, and for two same-keyed siblings — in particular
two with identical non-empty normalized bodies — created at t1 < t2, neither
having replies, the earlier is retained and the later removed as duplicate.
Siblings whose normalized bodies are empty but whose raw bodies differ are
keyed apart and both retained. -/
theorem c7_dedup_keyed_retention :
    (∀ (cs : List OuijaComment) (st0 : QueryState),
      ((cs.foldl (fun acc c => CommentDuplicateHandler.handle acc.1 c acc.2)
          (([], st0) : List (String × OuijaComment) × QueryState)).1.map
        (fun e => e.2.proxyBody)).Nodup)
    ∧ (∀ c : OuijaComment, c.body ≠ "" → c.proxyBody = c.body)
    ∧ (∀ (c1 c2 : OuijaComment) (st0 : QueryState),
        c1.proxyBody = c2.proxyBody → c1.created < c2.created →
        c1.hasReplies = false → c2.hasReplies = false → c2.removed = false →
        CommentDuplicateHandler.handle [] c1 st0 = ([(c1.proxyBody, c1)], st0)
        ∧ CommentDuplicateHandler.handle [(c1.proxyBody, c1)] c2 st0 =
            ([(c1.proxyBody, c1)],
             { st0 with removals := st0.removals
                ++ [(c2.snooObj.id, "duplicate")] })) := by
  refine ⟨?_, ?_, ?_⟩
  · intro cs st0
    obtain ⟨hnd, hbody⟩ :=
      foldl_handle_inv cs ([], st0) ⟨List.nodup_nil, by intro e he; cases he⟩
    rw [List.map_congr_left (fun e he => hbody e he)]
    exact hnd
  · intro c h
    unfold OuijaComment.proxyBody
    rw [if_neg h]
  · intro c1 c2 st0 hbody hlt hr1 hr2 hrm2
    refine ⟨rfl, ?_⟩
    simp only [CommentDuplicateHandler.handle, assocFind, if_pos hbody]
    rw [show (decide (c2.created > c1.created) && !c2.hasReplies) = true by
      simp [hlt, hr2]]
    simp only [if_true, removeComment, hrm2, Bool.false_eq_true, if_false]

/-- Witness for C7 (amended): the two-sibling scenario at concrete comments
with the non-empty normalized body `"X"`. -/
theorem c7_dedup_keyed_retention_witness :
    CommentDuplicateHandler.handle [] exDup1 emptyQueryState
      = ([(exDup1.proxyBody, exDup1)], emptyQueryState)
    ∧ CommentDuplicateHandler.handle [(exDup1.proxyBody, exDup1)] exDup2
        emptyQueryState
      = ([(exDup1.proxyBody, exDup1)],
         { emptyQueryState with removals := emptyQueryState.removals
            ++ [(exDup2.snooObj.id, "duplicate")] }) :=
  c7_dedup_keyed_retention.2.2 exDup1 exDup2 emptyQueryState rfl (by decide)
    rfl rfl rfl

/-- C8: a Terminator reached with fewer accumulated letters than the
configured minimum letter count is discarded silently: the evaluation state
is returned unchanged (no complete sequence, no incomplete sequence, no
removal logged) and the call reports no recorded sequence. -/
theorem c8_short_terminator_dropped (cfg : OuijaConfig) (i b a : String)
    (cr : Nat) (sc : Int) (bn : Bool) (replies : List RawComment)
    (letters : List String) (st : QueryState) (m : Nat)
    (hm : cfg.minletters = some m) (hlen : letters.length < m)
    (ht : (OuijaComment.of (.mk i b a cr sc bn replies)).type
        = OuijaComment.Types.Goodbye) :
    collectResponses cfg (.mk i b a cr sc bn replies) letters st = (st, false) := by
  simp only [collectResponses, ht, hm]
  simp [hlen]

/-- Witness for C8: a GOODBYE reached with one letter under a two-letter
minimum leaves the empty state unchanged. -/
theorem c8_short_terminator_dropped_witness :
    collectResponses ⟨none, some 2, none⟩ (.mk "g" "GOODBYE" "u" 0 5 false [])
      ["A"] emptyQueryState = (emptyQueryState, false) :=
  c8_short_terminator_dropped ⟨none, some 2, none⟩ "g" "GOODBYE" "u" 0 5 false []
    ["A"] emptyQueryState 2 rfl (by decide)
    (by simp [OuijaComment.of, RawComment.body, RawComment.banned_by,
      parseBody_bracketFree "GOODBYE" (by decide), countSymbols, goodbyeRegexTest,
      trimChars, removeFirst, isJsWhitespace, isWordChar, upperChar])

/-- A letter child with an Invalid (non-banned, unclassifiable) reply, under a
meta-titled post: fixture for the removal-suppression claim. -/
def exInvalidReply : RawComment := .mk "i" "??" "u2" 20 1 false []

def exLetterParent : RawComment := .mk "a2" "A" "u1" 10 1 false [exInvalidReply]

def exMetaPost : Post := ⟨"[meta] q", none, 0, "http://x/", none, [exLetterParent]⟩

/-- Counterexample to C5 as stated: on a meta post, an Invalid comment deeper
in the tree (here the reply `"i"`, whose body `"??"` normalizes to the empty
string) still triggers the removal side effect — the meta/moderator
suppression exists only in the top-level loop of `run`. -/
theorem c5_meta_nested_removal_cex :
    postIsMeta exMetaPost = true
    ∧ (OuijaQuery.run ⟨none, none, none⟩ exMetaPost 10 100).1.removals
        = [("i", "invalid")] := by
  constructor
  · decide
  · simp [OuijaQuery.run, OuijaQuery.runStep, exMetaPost, exLetterParent,
      exInvalidReply, collectResponses, collectReplies, OuijaComment.of, parseBody,
      stripLinksAux, matchLinkAfterBracket, immediateClose, findCloseParen,
      trimChars, removeFirst, countSymbols, isWordChar, upperChar, isJsWhitespace,
      isDotChar, goodbyeRegexTest, removeComment, CommentDuplicateHandler.handle,
      assocFind, assocUpdate, OuijaComment.hasReplies, OuijaComment.author,
      OuijaComment.created, OuijaComment.score, OuijaComment.proxyBody,
      RawComment.id, RawComment.body,
      RawComment.author, RawComment.created_utc, RawComment.score,
      RawComment.banned_by, RawComment.replies, emptyQueryState, postIsMeta,
      postIsModPost, containsSub, OuijaQuery.getResponse, OuijaQuery.hasTimeLeft,
      OuijaQuery.getTopCompletedResponse, OuijaQuery.threshold]

/-- C5 (amended): on meta/moderator posts removal of Invalid comments is
suppressed only for top-level comments (the `run` loop, which also does not
recurse below them); an Invalid comment reached inside the tree still gets
the removal attempt, and the collector returns right after that attempt —
the result does not depend on anything below the Invalid comment. -/
theorem c5_invalid_removal_scope :
    (∀ cfg (i b a : String) (cr : Nat) (sc : Int) (bn : Bool) replies letters st,
        (OuijaComment.of (.mk i b a cr sc bn replies)).type
            = OuijaComment.Types.Invalid →
        collectResponses cfg (.mk i b a cr sc bn replies) letters st =
          ((if bn = true then st
            else { st with removals := st.removals ++ [(i, "invalid")] }), false))
    ∧ (∀ cfg (isMeta isModPost : Bool) dupHandler st c,
        (isMeta = true ∨ isModPost = true) →
        (OuijaComment.of c).type = OuijaComment.Types.Invalid →
        OuijaQuery.runStep cfg isMeta isModPost (dupHandler, st) c
          = (dupHandler, st)) := by
  constructor
  · intro cfg i b a cr sc bn replies letters st ht
    simp only [collectResponses, ht]
    simp only [removeComment, OuijaComment.of_removed, OuijaComment.of_snooObj,
      RawComment.banned_by, RawComment.id]
  · intro cfg isMeta isModPost dupHandler st c hmeta ht
    simp only [OuijaQuery.runStep, ht]
    rcases hmeta with h | h <;> simp [h]

/-- Witness for C5 (amended): the top-level loop on a meta post leaves the
state untouched at an Invalid comment. -/
theorem c5_invalid_removal_scope_witness :
    OuijaQuery.runStep ⟨none, none, none⟩ true false ([], emptyQueryState)
      exInvalidReply = ([], emptyQueryState) :=
  c5_invalid_removal_scope.2 ⟨none, none, none⟩ true false [] emptyQueryState
    exInvalidReply (Or.inl rfl)
    (by simp [exInvalidReply, OuijaComment.of, RawComment.body, RawComment.banned_by,
      parseBody_bracketFree "??" (by decide), countSymbols, goodbyeRegexTest,
      trimChars, removeFirst, isJsWhitespace, isWordChar, upperChar])

/-- A submission with a configured wait duration still running: fixture for
the pending-summary claim. -/
def exPendingPost : Post := ⟨"t", none, 0, "u", none, []⟩

/-- Counterexample to C4 as stated: a pending submission (wait duration 3600
not elapsed at time 100) has no winner, its `answered` flag is false, and
`processPending` therefore lists it in the published unanswered summary —
it is not excluded. -/
theorem c4_pending_listed_cex :
    OuijaQuery.hasTimeLeft ⟨none, none, some 3600⟩ 0 100 = true
    ∧ (runQuery ⟨none, none, some 3600⟩ exPendingPost 8 100).answered = false
    ∧ processPending [runQuery ⟨none, none, some 3600⟩ exPendingPost 8 100]
        = "### [t](u)" ++ EOL
    ∧ ("### [t](u)" ++ EOL : String) ≠ "" := by
  refine ⟨rfl, rfl, by decide, by decide⟩

/-- The amendment's summary text: every evaluated submission without a winner
— pending or open alike — listed in reverse evaluation order with its
candidate tables; exactly the answered ones are excluded. -/
def specSummaryText (queries : List QueryRecord) : String :=
  (queries.reverse.filter (fun q => !q.answered)).foldl
    (fun text q => text ++ specSummaryEntry q) ""

theorem processPending_foldl_eq (l : List QueryRecord) (acc : String) :
    l.foldl
      (fun text query =>
        if query.answered then text
        else
          let text2 := text ++ "### [" ++ query.post.title ++ "](" ++ query.post.url ++ ")" ++ EOL
          let text3 := if query.responses.complete.length ≠ 0
            then text2 ++ createPendingWikiMarkdown query else text2
          if query.responses.incomplete.length ≠ 0
            then text3 ++ createIncompleteWikiMarkdown query else text3)
      acc
    = (l.filter (fun q => !q.answered)).foldl
        (fun text q => text ++ specSummaryEntry q) acc := by
  induction l generalizing acc with
  | nil => rfl
  | cons q rest ih =>
    rw [List.foldl_cons, List.filter_cons]
    by_cases ha : q.answered = true
    · rw [if_pos ha]
      simp only [ha, Bool.not_true, Bool.false_eq_true, if_false]
      exact ih acc
    · have ha2 : q.answered = false := by
        cases h2 : q.answered
        · rfl
        · exact absurd h2 ha
      rw [if_neg ha]
      simp only [ha2, Bool.not_false, if_true, List.foldl_cons]
      rw [show (let text2 := acc ++ "### [" ++ q.post.title ++ "](" ++ q.post.url ++ ")" ++ EOL
          let text3 := if q.responses.complete.length ≠ 0
            then text2 ++ createPendingWikiMarkdown q else text2
          if q.responses.incomplete.length ≠ 0
            then text3 ++ createIncompleteWikiMarkdown q else text3)
          = acc ++ specSummaryEntry q by
        simp only [specSummaryEntry]
        by_cases h1 : q.responses.complete.length ≠ 0 <;>
          by_cases h2 : q.responses.incomplete.length ≠ 0 <;>
            simp [h1, h2, string_append_assoc, String.append_empty]]
      exact ih (acc ++ specSummaryEntry q)

/-- C4 (amended): pending submissions are not excluded from the unanswered
summary; the summary lists, in reverse evaluation order, exactly the
submissions without a winner — pending ones (wait duration still running)
just like open ones — each with its complete and incomplete candidates, and
only answered submissions are excluded. -/
theorem c4_summary_lists_all_unanswered :
    (∀ queries, processPending queries = specSummaryText queries)
    ∧ (∀ cfg (post : Post) globalThreshold now,
        OuijaQuery.hasTimeLeft cfg post.created_utc now = true →
        (runQuery cfg post globalThreshold now).answered = false)
    ∧ (∀ q : QueryRecord, q.answered = false →
        processPending [q] = specSummaryEntry q) := by
  refine ⟨?_, ?_, ?_⟩
  · intro queries
    unfold processPending specSummaryText
    exact processPending_foldl_eq _ ""
  · intro cfg post globalThreshold now h
    simp only [runQuery, OuijaQuery.run, OuijaQuery.getResponse, h, if_true]
    rfl
  · intro q hq
    unfold processPending
    rw [processPending_foldl_eq]
    simp [hq, String.empty_append]

/-- All-unanswered fixture record for the summary witness. -/
def exOpenRecord : QueryRecord := ⟨⟨"t2", none, 0, "u2", none, []⟩, emptyQueryState, false⟩

/-- Witness for C4 (amended): an unanswered record is listed with its entry. -/
theorem c4_summary_lists_all_unanswered_witness :
    processPending [exOpenRecord] = specSummaryEntry exOpenRecord :=
  c4_summary_lists_all_unanswered.2.2 exOpenRecord rfl

end Ouija
